import Mathlib

/-!
Shallow embedding of the workspace-edit engine (`WorkspaceEditHandler` in
`src/handlers/workspace-edit.ts`): edit normalization, the per-document
text-edit applier with its validation and checkpoint/revert contract, the
resource-operation executor, and the transaction coordinator.

Buffer text is modelled line-wise as `List (List Char)`; machine concurrency
is modelled by the deterministic event-loop schedule in which every launched
task runs to completion before the aggregate `Promise.all` reaction fires.
-/

/-- Atom `Point`: a (row, column) position in a buffer. -/
structure Point where
  row : Nat
  column : Nat
deriving DecidableEq, Repr

/-- Atom `Range`: a half-open span between two points. -/
structure Range where
  start : Point
  «end» : Point
deriving DecidableEq, Repr

/-- Atom `Point.compare`: -1 / 0 / 1 by row, then column. -/
def Point.compare (p q : Point) : Int :=
  if p.row < q.row then -1
  else if q.row < p.row then 1
  else if p.column < q.column then -1
  else if q.column < p.column then 1
  else 0

/-- Atom `Range.compare`: compare starts; if equal, compare ends. -/
def Range.compare (a b : Range) : Int :=
  if Point.compare a.start b.start = 0 then Point.compare a.«end» b.«end»
  else Point.compare a.start b.start

/-- Strict lexicographic order on points (what `Point.compare < 0` decides). -/
def pointLt (p q : Point) : Prop :=
  p.row < q.row ∨ (p.row = q.row ∧ p.column < q.column)

/-- Non-strict lexicographic order on points. -/
def pointLe (p q : Point) : Prop :=
  pointLt p q ∨ p = q

/-- Strict order on ranges: by start, then by end (what `Range.compare < 0` decides). -/
def rangeLt (a b : Range) : Prop :=
  pointLt a.start b.start ∨ (a.start = b.start ∧ pointLt a.«end» b.«end»)

instance (p q : Point) : Decidable (pointLt p q) :=
  decidable_of_iff (p.row < q.row ∨ (p.row = q.row ∧ p.column < q.column)) Iff.rfl

instance (p q : Point) : Decidable (pointLe p q) :=
  decidable_of_iff (pointLt p q ∨ p = q) Iff.rfl

instance (a b : Range) : Decidable (rangeLt a b) :=
  decidable_of_iff (pointLt a.start b.start ∨ (a.start = b.start ∧ pointLt a.«end» b.«end»)) Iff.rfl

/-- Two ranges truly overlap when the half-open intervals they span intersect
in at least one position: `max(start₁, start₂) < min(end₁, end₂)`. -/
def trulyOverlap (a b : Range) : Prop :=
  pointLt a.start a.«end» ∧ pointLt a.start b.«end» ∧
  pointLt b.start a.«end» ∧ pointLt b.start b.«end»

instance (a b : Range) : Decidable (trulyOverlap a b) :=
  decidable_of_iff (pointLt a.start a.«end» ∧ pointLt a.start b.«end» ∧
    pointLt b.start a.«end» ∧ pointLt b.start b.«end») Iff.rfl

/-- LSP `TextEdit` as the wire carries it (spec §6 uses row/column coordinates). -/
structure TextEdit where
  range : Range
  newText : String
deriving DecidableEq, Repr

/-- `atomIde.TextEdit`: the editor-side shape produced by `Convert.convertLsTextEdit`. -/
structure AtomTextEdit where
  oldRange : Range
  newText : String
deriving DecidableEq, Repr

/-- Modelled from the spec: `Convert.convertLsTextEdit` (in `src/convert.ts`, not
under `src/`) maps a protocol text edit to the editor-side edit carrying the same
range (as `oldRange`) and replacement string. -/
def convertLsTextEdit (e : TextEdit) : AtomTextEdit :=
  { oldRange := e.range, newText := e.newText }

/-- Split a character list into lines at newline characters; always nonempty. -/
def splitNl : List Char → List (List Char)
  | [] => [[]]
  | c :: cs =>
    if c = '\n' then [] :: splitNl cs
    else
      match splitNl cs with
      | [] => [[c]]
      | l :: ls => (c :: l) :: ls

/-- An open document buffer: its content as a list of lines. -/
structure TextBuffer where
  lines : List (List Char)
deriving DecidableEq, Repr

/-- Build a buffer from a string. -/
def TextBuffer.ofText (s : String) : TextBuffer :=
  ⟨splitNl s.data⟩

/-- Atom `TextBuffer.lineLengthForRow`: `none` when the row is past the last row. -/
def TextBuffer.lineLengthForRow (b : TextBuffer) (row : Nat) : Option Nat :=
  (b.lines[row]?).map List.length

/-- A position that lies within the buffer's current extent. -/
def validStart (b : TextBuffer) (p : Point) : Prop :=
  ∃ l, b.lines[p.row]? = some l ∧ p.column ≤ l.length

instance (b : TextBuffer) (p : Point) : Decidable (validStart b p) :=
  match h : b.lines[p.row]? with
  | some l =>
    if hc : p.column ≤ l.length then isTrue ⟨l, h, hc⟩
    else isFalse (by rintro ⟨l', hl', hc'⟩; rw [h] at hl'; cases hl'; exact hc hc')
  | none => isFalse (by rintro ⟨l', hl', _⟩; rw [h] at hl'; cases hl')

/-- Atom `TextBuffer.clipPosition`: clamp a position to the buffer's extent. -/
def TextBuffer.clipPosition (b : TextBuffer) (p : Point) : Point :=
  if b.lines.length - 1 < p.row then
    ⟨b.lines.length - 1, ((b.lines[b.lines.length - 1]?).getD []).length⟩
  else ⟨p.row, min p.column ((b.lines[p.row]?).getD []).length⟩

/-- Join the tail of the replacement's lines onto the suffix of the end row. -/
def spliceTail : List (List Char) → List Char → List (List Char)
  | [], post => [post]
  | [x], post => [x ++ post]
  | x :: y :: xs, post => x :: spliceTail (y :: xs) post

/-- Merge the kept prefix of the start row, the replacement's lines, and the
kept suffix of the end row into the replaced rows. -/
def spliceLines (pre : List Char) (mid : List (List Char)) (post : List Char) :
    List (List Char) :=
  match mid with
  | [] => [pre ++ post]
  | [x] => [pre ++ x ++ post]
  | x :: y :: xs => (pre ++ x) :: spliceTail (y :: xs) post

/-- Atom `TextBuffer.setTextInRange`: replace the (clipped) range with `t`. -/
def TextBuffer.setTextInRange (b : TextBuffer) (r : Range) (t : String) : TextBuffer :=
  let s := b.clipPosition r.start
  let e := b.clipPosition r.«end»
  let sLine := (b.lines[s.row]?).getD []
  let eLine := (b.lines[e.row]?).getD []
  ⟨b.lines.take s.row ++
    spliceLines (sLine.take s.column) (splitNl t.data) (eLine.drop e.column) ++
    b.lines.drop (e.row + 1)⟩

/-- The two validation failures `validateEdit` can raise. -/
inductive EditError where
  | overlap
  | outOfRange
deriving DecidableEq, Repr

/-- The guard of the overlap check in `validateEdit`:
`prevEdit && edit.oldRange.end.compare(prevEdit.oldRange.start) > 0`. -/
def overlapsPrev (edit : AtomTextEdit) : Option AtomTextEdit → Prop
  | some prev => 0 < Point.compare edit.oldRange.«end» prev.oldRange.start
  | none => False

instance (edit : AtomTextEdit) (prevEdit : Option AtomTextEdit) :
    Decidable (overlapsPrev edit prevEdit) :=
  match prevEdit with
  | some prev =>
    inferInstanceAs (Decidable (0 < Point.compare edit.oldRange.«end» prev.oldRange.start))
  | none => inferInstanceAs (Decidable False)

/-- `WorkspaceEditHandler.validateEdit`: against the previously applied edit,
fail with an overlap error when the current edit's end is ordered after the
previous edit's start; then fail with an out-of-range error when the current
edit's start row has no line or its start column exceeds that line's length. -/
def validateEdit (buffer : TextBuffer) (edit : AtomTextEdit)
    (prevEdit : Option AtomTextEdit) : Except EditError Unit :=
  if overlapsPrev edit prevEdit then .error EditError.overlap
  else
    match buffer.lineLengthForRow edit.oldRange.start.row with
    | none => .error EditError.outOfRange
    | some lineLength =>
      if lineLength < edit.oldRange.start.column then .error EditError.outOfRange
      else .ok ()

/-- The comparator handed to the sort in `handleTextDocumentEdit`:
`(edit1, edit2) => -edit1.oldRange.compare(edit2.oldRange)`. -/
def sortCompare (e1 e2 : AtomTextEdit) : Int :=
  - Range.compare e1.oldRange e2.oldRange

/-- Insert `a` into a list sorted ascending by comparator `c`, after every
element it does not strictly precede (the placement a stable sort gives). -/
def insertSorted {α : Type} (c : α → α → Int) (a : α) : List α → List α
  | [] => [a]
  | b :: l => if c a b < 0 then a :: b :: l else b :: insertSorted c a l

/-- Stable comparator sort (JavaScript `Array.prototype.sort` is stable):
fold the input left to right, inserting each element after its equals. -/
def stableSort {α : Type} (c : α → α → Int) (l : List α) : List α :=
  l.foldl (fun acc a => insertSorted c a acc) []

/-- The `reduce` loop of `handleTextDocumentEdit`: validate each edit against
the live buffer and the previously applied edit, then apply the substitution. -/
def applyEdits : TextBuffer → List AtomTextEdit → Option AtomTextEdit →
    Except EditError TextBuffer
  | buffer, [], _ => .ok buffer
  | buffer, current :: rest, previous =>
    match validateEdit buffer current previous with
    | .error e => .error e
    | .ok _ => applyEdits (buffer.setTextInRange current.oldRange current.newText)
        rest (some current)

/-- LSP `OptionalVersionedTextDocumentIdentifier`. -/
structure VersionedTextDocumentIdentifier where
  uri : String
  version : Option Int
deriving DecidableEq, Repr

/-- LSP `TextDocumentEdit`: one document's batch of text edits. -/
structure TextDocumentEdit where
  textDocument : VersionedTextDocumentIdentifier
  edits : List TextEdit
deriving DecidableEq, Repr

/-- `WorkspaceEditHandler.handleTextDocumentEdit`: convert the edits, take a
checkpoint, sort in reverse range order, validate-and-apply each edit; on
success return the mutated buffer with the checkpoint, on failure the `catch`
reverts the buffer to the checkpoint and rethrows.  The checkpoint is modelled
as the pre-batch buffer content the revert restores. -/
def handleTextDocumentEdit (buffer : TextBuffer) (edit : TextDocumentEdit) :
    Except EditError (TextBuffer × TextBuffer) :=
  let atomEdits := edit.edits.map convertLsTextEdit
  let checkpoint := buffer
  match applyEdits buffer (stableSort sortCompare atomEdits) none with
  | .ok b' => .ok (b', checkpoint)
  | .error err => .error err

/-- The buffer content observable after `handleTextDocumentEdit` returns or
throws, paired with the error if any: on failure the buffer was reverted to
the checkpoint, i.e. to its pre-batch content. -/
def runBatch (buffer : TextBuffer) (edit : TextDocumentEdit) :
    TextBuffer × Option EditError :=
  match handleTextDocumentEdit buffer edit with
  | .ok (b', _) => (b', none)
  | .error e => (buffer, some e)

/-- A filesystem resource operation (`lsp.CreateFile | RenameFile | DeleteFile`). -/
inductive ResourceOp where
  | create (uri : String)
  | rename (oldUri newUri : String)
  | delete (uri : String)
deriving DecidableEq, Repr

/-- One entry of the normalized change list
(`lsp.TextDocumentEdit | CreateFile | RenameFile | DeleteFile`). -/
inductive DocumentChange where
  | textDocumentEdit (edit : TextDocumentEdit)
  | resource (op : ResourceOp)
deriving DecidableEq, Repr

/-- `lsp.WorkspaceEdit` as a JavaScript object: the outer `Option` records
whether the property key is present at all (`hasOwnProperty`), the inner
`Option` whether its value is defined. -/
structure WorkspaceEditMsg where
  documentChanges : Option (Option (List DocumentChange))
  changes : Option (Option (List (String × List TextEdit)))
deriving DecidableEq, Repr

/-- `WorkspaceEditHandler.normalizeChanges`: start from
`workspaceEdit.documentChanges || []`; only when the `documentChanges` key is
absent and the `changes` key is present, append one synthesized batch per key
of the legacy map, with a null version and that key's edit list. -/
def normalizeChanges (workspaceEdit : WorkspaceEditMsg) : List DocumentChange :=
  let changes := (workspaceEdit.documentChanges.getD none).getD []
  if workspaceEdit.documentChanges.isNone ∧ workspaceEdit.changes.isSome then
    changes ++ ((workspaceEdit.changes.getD none).getD []).map
      (fun kv => DocumentChange.textDocumentEdit
        { textDocument := { uri := kv.1, version := none }, edits := kv.2 })
  else changes

/-- Modelled from the spec: `Convert.uriToPath` (in `src/convert.ts`, not under
`src/`) resolves a `file://` URI to the filesystem path it denotes. -/
def uriToPath (u : String) : String :=
  if u.data.take 7 = "file://".data then String.mk (u.data.drop 7) else u

/-- The filesystem visible to the resource-operation executor: path ↦ content. -/
abbrev FileSystem : Type := List (String × String)

/-- Look a key up in an association list. -/
def lookupAssoc {α : Type} : List (String × α) → String → Option α
  | [], _ => none
  | (k, v) :: l, key => if k = key then some v else lookupAssoc l key

/-- Replace the value stored under a key that is present. -/
def updateAssoc {α : Type} (l : List (String × α)) (key : String) (v : α) :
    List (String × α) :=
  l.map fun p => if p.1 = key then (key, v) else p

/-- Write a file, creating it or overwriting its previous content. -/
def fsWrite (fs : FileSystem) (path content : String) : FileSystem :=
  match lookupAssoc fs path with
  | some _ => updateAssoc fs path content
  | none => fs ++ [(path, content)]

/-- Remove a file's entry. -/
def fsRemove (fs : FileSystem) (path : String) : FileSystem :=
  fs.filter fun p => p.1 ≠ path

/-- A failed filesystem call (`fsPromises` rejection). -/
inductive IoError where
  | ioError
deriving DecidableEq, Repr

/-- `WorkspaceEditHandler.handleResourceOperation`:
`delete` unlinks `Convert.uriToPath(edit.uri)`; `rename` moves
`Convert.uriToPath(edit.oldUri)` to `Convert.uriToPath(edit.newUri)`; `create`
writes an empty file — at `edit.uri` itself, not at its resolved path. -/
def handleResourceOperation (fs : FileSystem) :
    ResourceOp → Except IoError FileSystem
  | .delete uri =>
    match lookupAssoc fs (uriToPath uri) with
    | some _ => .ok (fsRemove fs (uriToPath uri))
    | none => .error IoError.ioError
  | .rename oldUri newUri =>
    match lookupAssoc fs (uriToPath oldUri) with
    | some content =>
      .ok (fsWrite (fsRemove fs (uriToPath oldUri)) (uriToPath newUri) content)
    | none => .error IoError.ioError
  | .create uri => .ok (fsWrite fs uri "")

/-- The mutable world the coordinator acts on: the open buffers, keyed by the
path their URI resolves to, and the filesystem. -/
structure CoordState where
  buffers : List (String × TextBuffer)
  fs : FileSystem
deriving DecidableEq

/-- `WorkspaceEditHandler.getBuffer`: resolve the URI to a path and fetch that
document's buffer (`atom.workspace.open` on an already-open document). -/
def getBuffer (st : CoordState) (uri : String) : Option TextBuffer :=
  lookupAssoc st.buffers (uriToPath uri)

/-- Store a document's mutated buffer back under its resolved path. -/
def setBuffer (st : CoordState) (uri : String) (b : TextBuffer) : CoordState :=
  { st with buffers := updateAssoc st.buffers (uriToPath uri) b }

/-- The coordinator's running data: the world state, the `checkpoints` array
of `(buffer, checkpoint)` records, and whether some awaited task has failed. -/
structure StepAcc where
  st : CoordState
  checkpoints : List (String × TextBuffer)
  failed : Bool
deriving DecidableEq

/-- One task of the `changes.map` callback in `handleDocumentChanges`.  A text
document edit resolves its buffer, applies the batch and records the
checkpoint; its thrown error rejects the task's promise and is seen by
`Promise.all`.  For a resource operation the callback neither returns nor
awaits the promise `handleResourceOperation` produces, so that promise's
rejection never reaches `Promise.all` and cannot mark the call failed. -/
def processChange (acc : StepAcc) : DocumentChange → StepAcc
  | .textDocumentEdit edit =>
    match getBuffer acc.st edit.textDocument.uri with
    | none => { acc with failed := true }
    | some buffer =>
      match handleTextDocumentEdit buffer edit with
      | .ok (b', checkpoint) =>
        { acc with
          st := setBuffer acc.st edit.textDocument.uri b'
          checkpoints := acc.checkpoints ++ [(uriToPath edit.textDocument.uri, checkpoint)] }
      | .error _ => { acc with failed := true }
  | .resource op =>
    match handleResourceOperation acc.st.fs op with
    | .ok fs' => { acc with st := { acc.st with fs := fs' } }
    | .error _ => acc

/-- The rollback loop of the `Promise.all` catch handler: revert every
recorded buffer to its recorded checkpoint. -/
def revertCheckpoints (st : CoordState) (checkpoints : List (String × TextBuffer)) :
    CoordState :=
  checkpoints.foldl
    (fun s kv => { s with buffers := updateAssoc s.buffers kv.1 kv.2 }) st

/-- `WorkspaceEditHandler.handleDocumentChanges`: run every change's task
(modelled on the deterministic schedule where each task settles before the
`Promise.all` reaction runs), then either keep all effects and answer
`{applied: true}`, or revert all recorded checkpoints and answer
`{applied: false}`. -/
def handleDocumentChanges (changes : List DocumentChange) (st : CoordState) :
    CoordState × Bool :=
  let acc := changes.foldl processChange ⟨st, [], false⟩
  if acc.failed then (revertCheckpoints acc.st acc.checkpoints, false)
  else (acc.st, true)

/-- `WorkspaceEditHandler.handle`: normalize, then run the coordinator. -/
def handle (workspaceEdit : WorkspaceEditMsg) (st : CoordState) :
    CoordState × Bool :=
  handleDocumentChanges (normalizeChanges workspaceEdit) st

theorem pointLt_irrefl (p : Point) : ¬ pointLt p p := by
  unfold pointLt; omega

theorem pointLt_trans {p q r : Point} (h1 : pointLt p q) (h2 : pointLt q r) :
    pointLt p r := by
  unfold pointLt at *; omega

theorem pointLt_asymm {p q : Point} (h : pointLt p q) : ¬ pointLt q p := by
  unfold pointLt at *; omega

theorem pointLt_antisymm {p q : Point} (h1 : ¬ pointLt p q) (h2 : ¬ pointLt q p) :
    p = q := by
  cases p; cases q
  unfold pointLt at *
  simp only [Point.mk.injEq] at *
  omega

theorem Point.compare_neg_iff (p q : Point) : Point.compare p q < 0 ↔ pointLt p q := by
  unfold Point.compare pointLt; split_ifs <;> omega

theorem Point.compare_pos_iff (p q : Point) : 0 < Point.compare p q ↔ pointLt q p := by
  unfold Point.compare pointLt; split_ifs <;> omega

theorem Point.compare_eq_zero_iff (p q : Point) : Point.compare p q = 0 ↔ p = q := by
  cases p; cases q
  simp only [Point.compare, Point.mk.injEq]
  split_ifs <;> simp <;> omega

theorem rangeCompare_neg_iff (a b : Range) : Range.compare a b < 0 ↔ rangeLt a b := by
  unfold Range.compare rangeLt
  split_ifs with h
  · have hs : a.start = b.start := (Point.compare_eq_zero_iff _ _).mp h
    rw [Point.compare_neg_iff]
    constructor
    · intro he; exact Or.inr ⟨hs, he⟩
    · rintro (hlt | ⟨_, he⟩)
      · exact absurd hlt (hs ▸ pointLt_irrefl _)
      · exact he
  · rw [Point.compare_neg_iff]
    constructor
    · exact Or.inl
    · rintro (hlt | ⟨he, _⟩)
      · exact hlt
      · exact absurd ((Point.compare_eq_zero_iff _ _).mpr he) h

theorem rangeCompare_pos_iff (a b : Range) : 0 < Range.compare a b ↔ rangeLt b a := by
  unfold Range.compare rangeLt
  split_ifs with h
  · have hs : a.start = b.start := (Point.compare_eq_zero_iff _ _).mp h
    rw [Point.compare_pos_iff]
    constructor
    · intro he; exact Or.inr ⟨hs.symm, he⟩
    · rintro (hlt | ⟨_, he⟩)
      · exact absurd hlt (hs ▸ pointLt_irrefl _)
      · exact he
  · rw [Point.compare_pos_iff]
    constructor
    · exact Or.inl
    · rintro (hlt | ⟨he, _⟩)
      · exact hlt
      · exact absurd ((Point.compare_eq_zero_iff _ _).mpr he.symm) h

theorem rangeLt_trans {a b c : Range} (h1 : rangeLt a b) (h2 : rangeLt b c) :
    rangeLt a c := by
  rcases h1 with h1 | ⟨e1, h1⟩ <;> rcases h2 with h2 | ⟨e2, h2⟩
  · exact Or.inl (pointLt_trans h1 h2)
  · exact Or.inl (e2 ▸ h1)
  · exact Or.inl (e1 ▸ h2)
  · exact Or.inr ⟨e1.trans e2, pointLt_trans h1 h2⟩

theorem rangeLt_asymm {a b : Range} (h : rangeLt a b) : ¬ rangeLt b a := by
  rintro (h' | ⟨e', h'⟩) <;> rcases h with h | ⟨e, h⟩
  · exact pointLt_asymm h h'
  · exact pointLt_irrefl _ (e ▸ h')
  · exact pointLt_irrefl _ (e' ▸ h)
  · exact pointLt_asymm h h' 

theorem rangeLt_antisymm {a b : Range} (h1 : ¬ rangeLt a b) (h2 : ¬ rangeLt b a) :
    a = b := by
  have hs : a.start = b.start := by
    by_cases hab : pointLt a.start b.start
    · exact absurd (Or.inl hab) h1
    · by_cases hba : pointLt b.start a.start
      · exact absurd (Or.inl hba) h2
      · exact pointLt_antisymm hab hba
  have he : a.«end» = b.«end» := by
    by_cases hab : pointLt a.«end» b.«end»
    · exact absurd (Or.inr ⟨hs, hab⟩) h1
    · by_cases hba : pointLt b.«end» a.«end»
      · exact absurd (Or.inr ⟨hs.symm, hba⟩) h2
      · exact pointLt_antisymm hab hba
  cases a; cases b
  simp only [Range.mk.injEq]
  exact ⟨hs, he⟩

theorem mem_insertSorted {α : Type} (c : α → α → Int) (a x : α) :
    ∀ l, x ∈ insertSorted c a l → x = a ∨ x ∈ l := by
  intro l
  induction l with
  | nil => intro h; simp only [insertSorted, List.mem_singleton] at h; exact Or.inl h
  | cons b t ih =>
    intro h
    rw [insertSorted] at h
    split at h
    · rcases List.mem_cons.mp h with h | h
      · exact Or.inl h
      · exact Or.inr h
    · rcases List.mem_cons.mp h with h | h
      · exact Or.inr (h ▸ List.mem_cons_self b t)
      · rcases ih h with h | h
        · exact Or.inl h
        · exact Or.inr (List.mem_cons_of_mem b h)

theorem insertSorted_perm {α : Type} (c : α → α → Int) (a : α) :
    ∀ l, (insertSorted c a l).Perm (a :: l) := by
  intro l
  induction l with
  | nil => rw [insertSorted]
  | cons b t ih =>
    rw [insertSorted]
    split
    · exact List.Perm.refl _
    · exact (ih.cons b).trans (List.Perm.swap a b t)

theorem foldl_insertSorted_perm {α : Type} (c : α → α → Int) :
    ∀ (l acc : List α),
      (l.foldl (fun acc a => insertSorted c a acc) acc).Perm (acc ++ l) := by
  intro l
  induction l with
  | nil => intro acc; simp
  | cons a t ih =>
    intro acc
    rw [List.foldl_cons]
    refine (ih (insertSorted c a acc)).trans ?_
    refine ((insertSorted_perm c a acc).append_right t).trans ?_
    simpa using (@List.perm_middle _ a acc t).symm

theorem stableSort_perm {α : Type} (c : α → α → Int) (l : List α) :
    (stableSort c l).Perm l := by
  have := foldl_insertSorted_perm c l []
  simpa [stableSort] using this

theorem pairwise_insertSorted {α : Type} {c : α → α → Int}
    (hasym : ∀ x y, c x y < 0 → ¬ c y x < 0)
    (htr : ∀ x y z, c x y < 0 → c y z < 0 → c x z < 0)
    (a : α) : ∀ l, l.Pairwise (fun x y => ¬ c y x < 0) →
      (insertSorted c a l).Pairwise (fun x y => ¬ c y x < 0) := by
  intro l
  induction l with
  | nil => intro _; simp [insertSorted]
  | cons b t ih =>
    intro hl
    rw [List.pairwise_cons] at hl
    obtain ⟨hb, ht⟩ := hl
    rw [insertSorted]
    split
    · rename_i h
      rw [List.pairwise_cons]
      refine ⟨?_, List.pairwise_cons.mpr ⟨hb, ht⟩⟩
      intro y hy
      rcases List.mem_cons.mp hy with rfl | hy
      · exact hasym a y h
      · intro hya
        exact hb y hy (htr y a b hya h)
    · rename_i h
      rw [List.pairwise_cons]
      refine ⟨?_, ih ht⟩
      intro y hy
      rcases mem_insertSorted c a y t hy with rfl | hy
      · exact h
      · exact hb y hy

theorem pairwise_stableSort {α : Type} {c : α → α → Int}
    (hasym : ∀ x y, c x y < 0 → ¬ c y x < 0)
    (htr : ∀ x y z, c x y < 0 → c y z < 0 → c x z < 0)
    (l : List α) :
    (stableSort c l).Pairwise (fun x y => ¬ c y x < 0) := by
  suffices h : ∀ (l acc : List α), acc.Pairwise (fun x y => ¬ c y x < 0) →
      (l.foldl (fun acc a => insertSorted c a acc) acc).Pairwise
        (fun x y => ¬ c y x < 0) by
    exact h l [] (List.Pairwise.nil)
  intro l
  induction l with
  | nil => intro acc h; simpa using h
  | cons a t ih =>
    intro acc h
    exact ih _ (pairwise_insertSorted hasym htr a acc h)

theorem pairwise_perm_eq {α : Type} {r : α → α → Prop}
    (hasym : ∀ a b, r a b → ¬ r b a) :
    ∀ {l₁ l₂ : List α}, l₁.Perm l₂ → l₁.Pairwise r → l₂.Pairwise r → l₁ = l₂ := by
  intro l₁
  induction l₁ with
  | nil =>
    intro l₂ hp _ _
    exact (hp.symm.eq_nil).symm
  | cons a t ih =>
    intro l₂ hp h₁ h₂
    cases l₂ with
    | nil => exact absurd hp.eq_nil (by simp)
    | cons b t₂ =>
      have hab : a = b := by
        by_contra hne
        have ha : a ∈ b :: t₂ := hp.mem_iff.mp (List.mem_cons_self a t)
        have ha' : a ∈ t₂ := by
          rcases List.mem_cons.mp ha with h | h
          · exact absurd h hne
          · exact h
        have hb : b ∈ a :: t := hp.symm.mem_iff.mp (List.mem_cons_self b t₂)
        have hb' : b ∈ t := by
          rcases List.mem_cons.mp hb with h | h
          · exact absurd h.symm hne
          · exact h
        exact hasym a b (List.rel_of_pairwise_cons h₁ hb')
          (List.rel_of_pairwise_cons h₂ ha')
      subst hab
      have := ih hp.cons_inv (List.Pairwise.of_cons h₁) (List.Pairwise.of_cons h₂)
      rw [this]

theorem sortCompare_neg_iff (x y : AtomTextEdit) :
    sortCompare x y < 0 ↔ rangeLt y.oldRange x.oldRange := by
  unfold sortCompare
  rw [neg_lt_zero]
  exact rangeCompare_pos_iff _ _

theorem sortCompare_asym (x y : AtomTextEdit) (h : sortCompare x y < 0) :
    ¬ sortCompare y x < 0 := by
  rw [sortCompare_neg_iff] at *
  exact rangeLt_asymm h

theorem sortCompare_trans (x y z : AtomTextEdit) (h1 : sortCompare x y < 0)
    (h2 : sortCompare y z < 0) : sortCompare x z < 0 := by
  rw [sortCompare_neg_iff] at *
  exact rangeLt_trans h2 h1

theorem validateEdit_ok_validStart {b : TextBuffer} {e : AtomTextEdit}
    {prev : Option AtomTextEdit} {u : Unit}
    (h : validateEdit b e prev = .ok u) : validStart b e.oldRange.start := by
  unfold validateEdit at h
  split_ifs at h
  revert h
  cases hl : b.lineLengthForRow e.oldRange.start.row with
  | none => intro h; cases h
  | some len =>
    intro h
    dsimp only at h
    split_ifs at h with hc
    unfold TextBuffer.lineLengthForRow at hl
    cases hx : b.lines[e.oldRange.start.row]? with
    | none => rw [hx] at hl; cases hl
    | some line =>
      rw [hx] at hl
      simp only [Option.map_some'] at hl
      cases hl
      exact ⟨line, hx, by omega⟩

theorem validateEdit_none_ok {b : TextBuffer} {e : AtomTextEdit}
    (h : validStart b e.oldRange.start) : validateEdit b e none = .ok () := by
  obtain ⟨line, hl, hc⟩ := h
  unfold validateEdit
  rw [if_neg (by exact fun hf => hf)]
  unfold TextBuffer.lineLengthForRow
  rw [hl]
  simp only [Option.map_some']
  rw [if_neg (by omega)]

theorem validateEdit_some_ok {b : TextBuffer} {e prev : AtomTextEdit}
    (hov : ¬ pointLt prev.oldRange.start e.oldRange.«end»)
    (h : validStart b e.oldRange.start) : validateEdit b e (some prev) = .ok () := by
  obtain ⟨line, hl, hc⟩ := h
  unfold validateEdit
  rw [if_neg]
  · unfold TextBuffer.lineLengthForRow
    rw [hl]
    simp only [Option.map_some']
    rw [if_neg (by omega)]
  · intro hf
    exact hov ((Point.compare_pos_iff _ _).mp hf)

theorem validateEdit_overlap_some {b : TextBuffer} {e prev : AtomTextEdit}
    (hov : pointLt prev.oldRange.start e.oldRange.«end») :
    validateEdit b e (some prev) = .error EditError.overlap := by
  unfold validateEdit
  rw [if_pos]
  exact (Point.compare_pos_iff _ _).mpr hov

theorem validateEdit_none_error {b : TextBuffer} {e : AtomTextEdit} {err : EditError}
    (h : validateEdit b e none = .error err) : err = EditError.outOfRange := by
  unfold validateEdit at h
  rw [if_neg (show ¬ overlapsPrev e none from fun hf => hf)] at h
  revert h
  cases b.lineLengthForRow e.oldRange.start.row with
  | none => intro h; cases h; rfl
  | some len =>
    intro h
    dsimp only at h
    split_ifs at h
    all_goals (cases h; rfl)

theorem validateEdit_no_overlap_error {b : TextBuffer} {e prev : AtomTextEdit}
    {err : EditError}
    (hov : ¬ pointLt prev.oldRange.start e.oldRange.«end»)
    (h : validateEdit b e (some prev) = .error err) : err = EditError.outOfRange := by
  unfold validateEdit at h
  rw [if_neg (show ¬ overlapsPrev e (some prev) from
    fun hf => hov ((Point.compare_pos_iff _ _).mp hf))] at h
  revert h
  cases b.lineLengthForRow e.oldRange.start.row with
  | none => intro h; cases h; rfl
  | some len =>
    intro h
    dsimp only at h
    split_ifs at h
    all_goals (cases h; rfl)

theorem validateEdit_error_of_invalid {b : TextBuffer} {e : AtomTextEdit}
    {prev : Option AtomTextEdit}
    (h : ¬ validStart b e.oldRange.start) :
    ∃ err, validateEdit b e prev = .error err := by
  unfold validateEdit
  split_ifs
  · exact ⟨EditError.overlap, rfl⟩
  · cases hl : b.lineLengthForRow e.oldRange.start.row with
    | none => exact ⟨EditError.outOfRange, rfl⟩
    | some len =>
      unfold TextBuffer.lineLengthForRow at hl
      cases hx : b.lines[e.oldRange.start.row]? with
      | none => rw [hx] at hl; cases hl
      | some line =>
        rw [hx] at hl
        simp only [Option.map_some'] at hl
        cases hl
        dsimp only
        rw [if_pos]
        · exact ⟨EditError.outOfRange, rfl⟩
        · by_contra hc
          exact h ⟨line, hx, by omega⟩

theorem validStart_row_lt {b : TextBuffer} {p : Point} (h : validStart b p) :
    p.row < b.lines.length := by
  obtain ⟨l, hl, _⟩ := h
  by_contra hc
  rw [List.getElem?_eq_none (by omega)] at hl
  cases hl

theorem clipPosition_eq_of_validStart {b : TextBuffer} {p : Point}
    (h : validStart b p) : b.clipPosition p = p := by
  obtain ⟨l, hl, hc⟩ := h
  have hrow : p.row < b.lines.length := validStart_row_lt ⟨l, hl, hc⟩
  unfold TextBuffer.clipPosition
  rw [if_neg (show ¬ (b.lines.length - 1 < p.row) by omega)]
  rw [hl]
  simp only [Option.getD_some]
  rw [Nat.min_eq_left hc]

theorem setTextInRange_preserves_before {b : TextBuffer} {r : Range} {t : String}
    {i : Nat} (hv : validStart b r.start) (hi : i < r.start.row) :
    (b.setTextInRange r t).lines[i]? = b.lines[i]? := by
  have hrow : r.start.row < b.lines.length := validStart_row_lt hv
  unfold TextBuffer.setTextInRange
  dsimp only
  rw [clipPosition_eq_of_validStart hv]
  rw [List.getElem?_append_left
    (by rw [List.length_append, List.length_take]; omega)]
  rw [List.getElem?_append_left
    (by rw [List.length_take]; omega : i < (b.lines.take r.start.row).length)]
  rw [List.getElem?_take]
  rw [if_pos hi]

theorem applyEdits_error_of_invalid {X : AtomTextEdit} :
    ∀ (l : List AtomTextEdit) (b : TextBuffer) (prev : Option AtomTextEdit),
      l.Pairwise (fun x y => ¬ sortCompare y x < 0) → X ∈ l →
      ¬ validStart b X.oldRange.start →
      ∃ err, applyEdits b l prev = .error err := by
  intro l
  induction l with
  | nil => intro b prev _ hX _; cases hX
  | cons e rest ih =>
    intro b prev hpw hX hinv
    rw [List.pairwise_cons] at hpw
    obtain ⟨hfirst, hrest⟩ := hpw
    cases hv : validateEdit b e prev with
    | error err => exact ⟨err, by rw [applyEdits, hv]⟩
    | ok u =>
      have hval : validStart b e.oldRange.start := validateEdit_ok_validStart hv
      have heX : e ≠ X := fun h => hinv (h ▸ hval)
      have hXrest : X ∈ rest := by
        rcases List.mem_cons.mp hX with h | h
        · exact absurd h.symm heX
        · exact h
      have hge : ¬ rangeLt e.oldRange X.oldRange := by
        intro hlt
        exact hfirst X hXrest ((sortCompare_neg_iff X e).mpr hlt)
      obtain ⟨line, hline, hcol⟩ := hval
      have hrowgt : X.oldRange.start.row < e.oldRange.start.row := by
        rcases Nat.lt_trichotomy X.oldRange.start.row e.oldRange.start.row with h | h | h
        · exact h
        · exfalso
          have hcolle : X.oldRange.start.column ≤ e.oldRange.start.column := by
            by_contra hcl
            exact hge (Or.inl (Or.inr ⟨h.symm, by omega⟩))
          exact hinv ⟨line, h ▸ hline, by omega⟩
        · exact absurd (Or.inl (Or.inl h)) hge
      have hpres := setTextInRange_preserves_before (t := e.newText)
        ⟨line, hline, hcol⟩ hrowgt
      have hinv' : ¬ validStart (b.setTextInRange e.oldRange e.newText)
          X.oldRange.start := by
        rintro ⟨l', hl', hc'⟩
        rw [hpres] at hl'
        exact hinv ⟨l', hl', hc'⟩
      obtain ⟨err, herr⟩ := ih _ (some e) hrest hXrest hinv'
      exact ⟨err, by rw [applyEdits, hv, herr]⟩

theorem pointLe_of_not_lt {p q : Point} (h : ¬ pointLt p q) : pointLe q p := by
  cases p; cases q
  unfold pointLt pointLe pointLt at *
  simp only [Point.mk.injEq] at *
  omega

theorem pointLe_not_lt_eq {p q : Point} (h1 : pointLe p q) (h2 : ¬ pointLt p q) :
    p = q := by
  rcases h1 with h1 | h1
  · exact absurd h1 h2
  · exact h1

theorem stableSort_pair {α : Type} (c : α → α → Int) (a b : α) :
    stableSort c [a, b] = if c b a < 0 then [b, a] else [a, b] := by
  by_cases h : c b a < 0 <;> simp [stableSort, insertSorted, h]

theorem applyEdits_pair_overlap {b : TextBuffer} {u v : AtomTextEdit}
    (hval : validStart b u.oldRange.start)
    (hov : pointLt u.oldRange.start v.oldRange.«end») :
    applyEdits b [u, v] none = .error EditError.overlap := by
  rw [applyEdits, validateEdit_none_ok hval]
  dsimp only
  rw [applyEdits, validateEdit_overlap_some hov]

theorem applyEdits_pair_not_overlap {b : TextBuffer} {u v : AtomTextEdit}
    (hov : ¬ pointLt u.oldRange.start v.oldRange.«end») :
    ∀ err, applyEdits b [u, v] none = .error err → err = EditError.outOfRange := by
  intro err h
  rw [applyEdits] at h
  cases hv1 : validateEdit b u none with
  | error e1 =>
    rw [hv1] at h
    dsimp only at h
    cases h
    exact validateEdit_none_error hv1
  | ok u1 =>
    rw [hv1] at h
    dsimp only at h
    rw [applyEdits] at h
    cases hv2 : validateEdit (b.setTextInRange u.oldRange u.newText) v (some u) with
    | error e2 =>
      rw [hv2] at h
      dsimp only at h
      cases h
      exact validateEdit_no_overlap_error hov hv2
    | ok u2 =>
      rw [hv2] at h
      dsimp only at h
      rw [applyEdits] at h
      cases h

theorem runBatch_eq (b : TextBuffer) (e : TextDocumentEdit) :
    runBatch b e =
      match applyEdits b (stableSort sortCompare (e.edits.map convertLsTextEdit)) none with
      | .ok b' => (b', none)
      | .error err => (b, some err) := by
  unfold runBatch handleTextDocumentEdit
  dsimp only
  cases applyEdits b (stableSort sortCompare (e.edits.map convertLsTextEdit)) none <;> rfl

theorem handleTextDocumentEdit_checkpoint {b : TextBuffer} {e : TextDocumentEdit}
    {b' cp : TextBuffer} (h : handleTextDocumentEdit b e = .ok (b', cp)) : cp = b := by
  unfold handleTextDocumentEdit at h
  dsimp only at h
  revert h
  cases applyEdits b (stableSort sortCompare (e.edits.map convertLsTextEdit)) none with
  | ok bb => intro h; cases h; rfl
  | error er => intro h; cases h

theorem lookupAssoc_updateAssoc_self {α : Type} (l : List (String × α))
    (k : String) (v v₀ : α) (h : lookupAssoc l k = some v₀) :
    lookupAssoc (updateAssoc l k v) k = some v := by
  induction l with
  | nil => cases h
  | cons p t ih =>
    obtain ⟨k₁, v₁⟩ := p
    rw [lookupAssoc] at h
    by_cases hk : k₁ = k
    · simp only [updateAssoc, List.map_cons, if_pos hk]
      rw [lookupAssoc, if_pos rfl]
    · rw [if_neg hk] at h
      simp only [updateAssoc, List.map_cons, if_neg hk]
      rw [lookupAssoc, if_neg hk]
      exact ih h

/-- C6: a workspace edit in the legacy mapping shape (a `changes` map present,
no `documentChanges` key) normalizes to one text-document batch per key of the
map, whose document identifier is that key, whose version is null, and whose
edit list is that key's edit list — the same internal list the per-batch shape
with version null produces. -/
theorem c6_legacy_shape_normalization (m : List (String × List TextEdit)) :
    normalizeChanges { documentChanges := none, changes := some (some m) } =
      m.map (fun kv => DocumentChange.textDocumentEdit
        { textDocument := { uri := kv.1, version := none }, edits := kv.2 }) ∧
    normalizeChanges { documentChanges := none, changes := some (some m) } =
      normalizeChanges
        { documentChanges := some (some (m.map (fun kv =>
            DocumentChange.textDocumentEdit
              { textDocument := { uri := kv.1, version := none },
                edits := kv.2 }))),
          changes := none } := by
  constructor <;> simp [normalizeChanges]

/-- C9: shape selection in `normalizeChanges` is decided by the presence of the
`documentChanges` key alone: whenever the key is present — even with an
undefined or empty value — the legacy `changes` map is ignored and the result
is exactly what `documentChanges` holds (the empty list when it is undefined
or empty). -/
theorem c9_documentChanges_presence_decides (dv : Option (List DocumentChange))
    (ch : Option (Option (List (String × List TextEdit)))) :
    normalizeChanges { documentChanges := some dv, changes := ch } = dv.getD [] := by
  simp [normalizeChanges]

/-- C10: applying a text-document batch with an empty edit list always
succeeds, returns the checkpoint, and leaves the buffer's content unchanged. -/
theorem c10_empty_batch_succeeds (b : TextBuffer)
    (td : VersionedTextDocumentIdentifier) :
    handleTextDocumentEdit b { textDocument := td, edits := [] } = .ok (b, b) := rfl

/-- C8: on a document reading "hello world", the batch replacing columns 0-5
of row 0 with "goodbye" and columns 6-11 of row 0 with "earth" succeeds and
produces "goodbye earth" (the applier applies the later edit first). -/
theorem c8_hello_world_scenario :
    handleTextDocumentEdit (TextBuffer.ofText "hello world")
      { textDocument := { uri := "file:///a", version := none },
        edits := [ { range := { start := ⟨0, 0⟩, «end» := ⟨0, 5⟩ },
                     newText := "goodbye" },
                   { range := { start := ⟨0, 6⟩, «end» := ⟨0, 11⟩ },
                     newText := "earth" } ] } =
      .ok (TextBuffer.ofText "goodbye earth", TextBuffer.ofText "hello world") := by
  rfl

/-- C7: the `create` arm of `handleResourceOperation` writes the empty file at
the raw URI string `edit.uri`, not at the resolved path `Convert.uriToPath`
gives — unlike `delete`, which resolves the same URI to "/a.txt"; the file
just created is therefore invisible at its resolved path, and deleting the
same URI right after creating it fails. -/
theorem c7_create_skips_uri_resolution :
    handleResourceOperation [] (ResourceOp.create "file:///a.txt") =
      .ok [("file:///a.txt", "")] ∧
    uriToPath "file:///a.txt" = "/a.txt" ∧
    lookupAssoc ([("file:///a.txt", "")] : FileSystem) (uriToPath "file:///a.txt") =
      none ∧
    handleResourceOperation [("file:///a.txt", "")]
      (ResourceOp.delete "file:///a.txt") = .error IoError.ioError :=
  ⟨rfl, rfl, rfl, rfl⟩

/-- C2: a failing resource operation does not make the apply call fail.  With
one document batch (applied successfully) and one `rename` whose source path
does not exist, the rename's rejection is never awaited by the coordinator,
so the call returns `{applied: true}` and the already-applied document edit is
kept, not reverted. -/
theorem c2_failed_rename_not_observed :
    handleDocumentChanges
      [ DocumentChange.textDocumentEdit
          { textDocument := { uri := "file:///a.txt", version := none },
            edits := [ { range := { start := ⟨0, 0⟩, «end» := ⟨0, 1⟩ },
                         newText := "X" } ] },
        DocumentChange.resource
          (ResourceOp.rename "file:///missing.txt" "file:///new.txt") ]
      { buffers := [("/a.txt", TextBuffer.ofText "abc")],
        fs := [("/other.txt", "x")] } =
      ({ buffers := [("/a.txt", TextBuffer.ofText "Xbc")],
         fs := [("/other.txt", "x")] }, true) := by
  rfl

/-- C1: in an apply call with two document batches where A's batch succeeds
and B's batch fails validation, the coordinator reverts A's buffer to its
pre-call content through A's recorded checkpoint and answers
`{applied: false}`. -/
theorem c1_failing_batch_reverts_sibling
    (st : CoordState) (eA eB : TextDocumentEdit) (bufA bA' bufB : TextBuffer)
    (err : EditError)
    (hA : getBuffer st eA.textDocument.uri = some bufA)
    (hAok : handleTextDocumentEdit bufA eA = .ok (bA', bufA))
    (hB : getBuffer (setBuffer st eA.textDocument.uri bA') eB.textDocument.uri =
      some bufB)
    (hBerr : handleTextDocumentEdit bufB eB = .error err) :
    (handleDocumentChanges
      [DocumentChange.textDocumentEdit eA, DocumentChange.textDocumentEdit eB]
      st).2 = false ∧
    getBuffer (handleDocumentChanges
      [DocumentChange.textDocumentEdit eA, DocumentChange.textDocumentEdit eB]
      st).1 eA.textDocument.uri = some bufA := by
  have h1 : processChange ⟨st, [], false⟩ (DocumentChange.textDocumentEdit eA) =
      ⟨setBuffer st eA.textDocument.uri bA',
       [(uriToPath eA.textDocument.uri, bufA)], false⟩ := by
    unfold processChange
    dsimp only
    rw [hA]
    dsimp only
    rw [hAok]
    rfl
  have h2 : processChange
      (⟨setBuffer st eA.textDocument.uri bA',
        [(uriToPath eA.textDocument.uri, bufA)], false⟩ : StepAcc)
      (DocumentChange.textDocumentEdit eB) =
      ⟨setBuffer st eA.textDocument.uri bA',
       [(uriToPath eA.textDocument.uri, bufA)], true⟩ := by
    unfold processChange
    dsimp only
    rw [hB]
    dsimp only
    rw [hBerr]
  unfold handleDocumentChanges
  rw [List.foldl_cons, h1, List.foldl_cons, h2, List.foldl_nil]
  dsimp only
  constructor
  · rfl
  · unfold revertCheckpoints
    rw [List.foldl_cons, List.foldl_nil]
    unfold getBuffer setBuffer at *
    dsimp only
    have ha1 : lookupAssoc
        (updateAssoc st.buffers (uriToPath eA.textDocument.uri) bA')
        (uriToPath eA.textDocument.uri) = some bA' :=
      lookupAssoc_updateAssoc_self _ _ _ _ hA
    exact lookupAssoc_updateAssoc_self _ _ _ _ ha1

def c1State : CoordState :=
  { buffers := [("/a", TextBuffer.ofText "hello world"),
                ("/b", TextBuffer.ofText "abc")],
    fs := [] }

def c1BatchA : TextDocumentEdit :=
  { textDocument := { uri := "file:///a", version := none },
    edits := [ { range := { start := ⟨0, 0⟩, «end» := ⟨0, 5⟩ },
                 newText := "goodbye" } ] }

def c1BatchB : TextDocumentEdit :=
  { textDocument := { uri := "file:///b", version := none },
    edits := [ { range := { start := ⟨0, 0⟩, «end» := ⟨0, 2⟩ }, newText := "x" },
               { range := { start := ⟨0, 1⟩, «end» := ⟨0, 3⟩ }, newText := "y" } ] }

/-- C1 witness: with "/a" reading "hello world" (batch succeeds) and "/b"
reading "abc" (batch has truly overlapping edits and fails), the call answers
`applied = false` and "/a" is back to "hello world". -/
theorem c1_failing_batch_reverts_sibling_witness :
    (handleDocumentChanges
      [DocumentChange.textDocumentEdit c1BatchA,
       DocumentChange.textDocumentEdit c1BatchB] c1State).2 = false ∧
    getBuffer (handleDocumentChanges
      [DocumentChange.textDocumentEdit c1BatchA,
       DocumentChange.textDocumentEdit c1BatchB] c1State).1
      c1BatchA.textDocument.uri = some (TextBuffer.ofText "hello world") :=
  c1_failing_batch_reverts_sibling c1State c1BatchA c1BatchB
    (TextBuffer.ofText "hello world") (TextBuffer.ofText "goodbye world")
    (TextBuffer.ofText "abc") EditError.overlap rfl rfl rfl rfl

theorem applyEdits_pair_overlap_any {b : TextBuffer} {u v : AtomTextEdit}
    (hov : pointLt u.oldRange.start v.oldRange.«end») :
    (∃ err, applyEdits b [u, v] none = .error err) ∧
    (validStart b u.oldRange.start →
      applyEdits b [u, v] none = .error EditError.overlap) := by
  cases hv1 : validateEdit b u none with
  | error e1 =>
    constructor
    · exact ⟨e1, by rw [applyEdits, hv1]⟩
    · intro hval
      rw [validateEdit_none_ok hval] at hv1
      cases hv1
  | ok u1 =>
    have hval : validStart b u.oldRange.start := validateEdit_ok_validStart hv1
    have h := applyEdits_pair_overlap hval hov
    exact ⟨⟨EditError.overlap, h⟩, fun _ => h⟩

/-- C3 (amended): a document batch of two truly overlapping edits always
fails and leaves the buffer byte-for-byte unchanged; the error is the overlap
error whenever both edits' starts lie within the buffer's extent (with a
start out of range the batch still fails, with one of the two errors); a
batch of two merely adjacent edits — either edit's end equal to the other's
start — never fails with the overlap error. -/
theorem c3_overlap_fails_adjacent_allowed (b₀ : TextBuffer)
    (td : VersionedTextDocumentIdentifier) (x y : TextEdit) :
    (trulyOverlap x.range y.range →
      ((runBatch b₀ { textDocument := td, edits := [x, y] }).1 = b₀ ∧
        ∃ err, (runBatch b₀ { textDocument := td, edits := [x, y] }).2 =
          some err) ∧
      (validStart b₀ x.range.start → validStart b₀ y.range.start →
        runBatch b₀ { textDocument := td, edits := [x, y] } =
          (b₀, some EditError.overlap))) ∧
    (pointLe x.range.start x.range.«end» → pointLe y.range.start y.range.«end» →
      (x.range.«end» = y.range.start ∨ y.range.«end» = x.range.start) →
      ∀ e, (runBatch b₀ { textDocument := td, edits := [x, y] }).2 = some e →
        e ≠ EditError.overlap) := by
  constructor
  · intro hov
    rw [runBatch_eq]
    simp only [List.map_cons, List.map_nil]
    rw [stableSort_pair]
    by_cases hlt : sortCompare (convertLsTextEdit y) (convertLsTextEdit x) < 0
    · rw [if_pos hlt]
      obtain ⟨⟨err, herr⟩, hvalid⟩ := applyEdits_pair_overlap_any (b := b₀)
        (u := convertLsTextEdit y) (v := convertLsTextEdit x) hov.2.2.1
      constructor
      · rw [herr]
        exact ⟨rfl, err, rfl⟩
      · intro _ hvy
        rw [hvalid hvy]
    · rw [if_neg hlt]
      obtain ⟨⟨err, herr⟩, hvalid⟩ := applyEdits_pair_overlap_any (b := b₀)
        (u := convertLsTextEdit x) (v := convertLsTextEdit y) hov.2.1
      constructor
      · rw [herr]
        exact ⟨rfl, err, rfl⟩
      · intro hvx _
        rw [hvalid hvx]
  · intro wfx wfy hadj e he
    intro heq
    subst heq
    rw [runBatch_eq] at he
    simp only [List.map_cons, List.map_nil] at he
    rw [stableSort_pair] at he
    by_cases hlt : sortCompare (convertLsTextEdit y) (convertLsTextEdit x) < 0
    · rw [if_pos hlt] at he
      rcases hadj with hadj | hadj
      · revert he
        cases happ : applyEdits b₀ [convertLsTextEdit y, convertLsTextEdit x] none with
        | ok bb => intro he; cases he
        | error er =>
          intro he
          have her : er = EditError.overlap := by
            cases he
            rfl
          have hnov : ¬ pointLt (convertLsTextEdit y).oldRange.start
              (convertLsTextEdit x).oldRange.«end» := by
            intro hp
            have hp2 : pointLt y.range.start x.range.«end» := hp
            rw [hadj] at hp2
            exact pointLt_irrefl _ hp2
          have := applyEdits_pair_not_overlap hnov er happ
          rw [her] at this
          cases this
      · exfalso
        have hr : rangeLt x.range y.range :=
          (sortCompare_neg_iff (convertLsTextEdit y) (convertLsTextEdit x)).mp hlt
        have hyx : pointLe y.range.start x.range.start := hadj ▸ wfy
        rcases hr with hp | ⟨hse, hpe⟩
        · rcases hyx with hlt' | heq'
          · exact pointLt_asymm hp hlt'
          · exact pointLt_irrefl _ (heq' ▸ hp)
        · have hxe : pointLt x.range.«end» x.range.start := by
            rw [← hadj]
            exact hpe
          rcases wfx with hlt' | heq'
          · exact pointLt_asymm hxe hlt'
          · exact pointLt_irrefl _ (heq' ▸ hxe)
    · rw [if_neg hlt] at he
      revert he
      cases happ : applyEdits b₀ [convertLsTextEdit x, convertLsTextEdit y] none with
      | ok bb => intro he; cases he
      | error er =>
        intro he
        have her : er = EditError.overlap := by
          cases he
          rfl
        have hnov : ¬ pointLt (convertLsTextEdit x).oldRange.start
            (convertLsTextEdit y).oldRange.«end» := by
          rcases hadj with hadj | hadj
          · have hnr : ¬ rangeLt x.range y.range := by
              intro hr
              exact hlt ((sortCompare_neg_iff (convertLsTextEdit y)
                (convertLsTextEdit x)).mpr hr)
            have h1 : ¬ pointLt x.range.start y.range.start :=
              fun hp => hnr (Or.inl hp)
            have hse : x.range.start = y.range.start :=
              pointLe_not_lt_eq (hadj ▸ wfx) h1
            have h2 : ¬ pointLt x.range.«end» y.range.«end» :=
              fun hp => hnr (Or.inr ⟨hse, hp⟩)
            have hye : y.range.start = y.range.«end» :=
              pointLe_not_lt_eq wfy (hadj ▸ h2)
            intro hp
            have hp2 : pointLt x.range.start y.range.«end» := hp
            rw [hse, ← hye] at hp2
            exact pointLt_irrefl _ hp2
          · intro hp
            have hp2 : pointLt x.range.start y.range.«end» := hp
            rw [hadj] at hp2
            exact pointLt_irrefl _ hp2
        have := applyEdits_pair_not_overlap hnov er happ
        rw [her] at this
        cases this

/-- C3 counterexample to the claim as stated: two truly overlapping edits
whose (identical) start column 5 exceeds row 0's length 3 make the batch fail
with the out-of-range error, not the overlap error — the first-applied edit's
range check runs before any overlap check. -/
theorem c3_out_of_range_preempts_overlap :
    trulyOverlap { start := ⟨0, 5⟩, «end» := ⟨0, 7⟩ }
      { start := ⟨0, 5⟩, «end» := ⟨0, 7⟩ } ∧
    runBatch (TextBuffer.ofText "abc")
      { textDocument := { uri := "file:///a", version := none },
        edits := [ { range := { start := ⟨0, 5⟩, «end» := ⟨0, 7⟩ },
                     newText := "u" },
                   { range := { start := ⟨0, 5⟩, «end» := ⟨0, 7⟩ },
                     newText := "v" } ] } =
      (TextBuffer.ofText "abc", some EditError.outOfRange) ∧
    EditError.outOfRange ≠ EditError.overlap :=
  ⟨by decide, rfl, by decide⟩

def c3Doc : VersionedTextDocumentIdentifier := { uri := "file:///a", version := none }

def c3OverlapX : TextEdit :=
  { range := { start := ⟨0, 0⟩, «end» := ⟨0, 3⟩ }, newText := "A" }

def c3OverlapY : TextEdit :=
  { range := { start := ⟨0, 2⟩, «end» := ⟨0, 4⟩ }, newText := "B" }

def c3AdjacentX : TextEdit :=
  { range := { start := ⟨0, 0⟩, «end» := ⟨0, 2⟩ }, newText := "A" }

def c3AdjacentY : TextEdit :=
  { range := { start := ⟨0, 2⟩, «end» := ⟨0, 4⟩ }, newText := "B" }

/-- C3 witness: on "hello", the truly-overlapping in-range pair fails with the
overlap error and leaves the buffer unchanged, while the merely-adjacent pair
never produces the overlap error, in either input order (so in either
orientation of "one edit's end equals the other's start"). -/
theorem c3_overlap_fails_adjacent_allowed_witness :
    runBatch (TextBuffer.ofText "hello")
      { textDocument := c3Doc, edits := [c3OverlapX, c3OverlapY] } =
      (TextBuffer.ofText "hello", some EditError.overlap) ∧
    (∀ e, (runBatch (TextBuffer.ofText "hello")
      { textDocument := c3Doc, edits := [c3AdjacentX, c3AdjacentY] }).2 =
        some e → e ≠ EditError.overlap) ∧
    (∀ e, (runBatch (TextBuffer.ofText "hello")
      { textDocument := c3Doc, edits := [c3AdjacentY, c3AdjacentX] }).2 =
        some e → e ≠ EditError.overlap) :=
  ⟨((c3_overlap_fails_adjacent_allowed (TextBuffer.ofText "hello") c3Doc
      c3OverlapX c3OverlapY).1 (by decide)).2 (by decide) (by decide),
   (c3_overlap_fails_adjacent_allowed (TextBuffer.ofText "hello") c3Doc
      c3AdjacentX c3AdjacentY).2 (by decide) (by decide) (by decide),
   (c3_overlap_fails_adjacent_allowed (TextBuffer.ofText "hello") c3Doc
      c3AdjacentY c3AdjacentX).2 (by decide) (by decide) (by decide)⟩

/-- C5 (amended): a document batch containing an edit whose start row exceeds
the buffer's last row or whose start column exceeds that row's length always
fails and leaves the buffer's content unchanged; the error is not necessarily
the out-of-range error, because an overlap among edits sorted earlier can be
detected first. -/
theorem c5_out_of_range_edit_fails_batch (b : TextBuffer)
    (td : VersionedTextDocumentIdentifier) (edits : List TextEdit) (X : TextEdit)
    (hX : X ∈ edits)
    (hoor : b.lineLengthForRow X.range.start.row = none ∨
      ∃ n, b.lineLengthForRow X.range.start.row = some n ∧
        n < X.range.start.column) :
    (runBatch b { textDocument := td, edits := edits }).1 = b ∧
    ∃ err, (runBatch b { textDocument := td, edits := edits }).2 = some err := by
  have hinv : ¬ validStart b X.range.start := by
    rintro ⟨l, hl, hc⟩
    unfold TextBuffer.lineLengthForRow at hoor
    rcases hoor with h | ⟨n, hn, hlt⟩
    · rw [hl] at h
      cases h
    · rw [hl] at hn
      simp only [Option.map_some'] at hn
      cases hn
      omega
  have hpw := pairwise_stableSort sortCompare_asym sortCompare_trans
    (edits.map convertLsTextEdit)
  have hmem : convertLsTextEdit X ∈
      stableSort sortCompare (edits.map convertLsTextEdit) :=
    ((stableSort_perm sortCompare _).mem_iff).mpr (List.mem_map_of_mem _ hX)
  obtain ⟨err, herr⟩ :=
    applyEdits_error_of_invalid _ b none hpw hmem hinv
  rw [runBatch_eq, herr]
  exact ⟨rfl, err, rfl⟩

/-- C5 counterexample to the claim as stated: on a buffer with rows "abc" and
"defgh", a batch holding the out-of-range edit [0,10]-[0,10] together with
the overlapping pair [1,0]-[1,2] and [0,11]-[1,1] fails with the overlap
error, not the out-of-range error: the two overlapping edits sort before the
out-of-range one and the overlap check fires first. -/
theorem c5_overlap_preempts_out_of_range :
    (TextBuffer.ofText "abc\ndefgh").lineLengthForRow 0 = some 3 ∧
    runBatch (TextBuffer.ofText "abc\ndefgh")
      { textDocument := { uri := "file:///a", version := none },
        edits := [ { range := { start := ⟨0, 10⟩, «end» := ⟨0, 10⟩ },
                     newText := "Z" },
                   { range := { start := ⟨1, 0⟩, «end» := ⟨1, 2⟩ },
                     newText := "q" },
                   { range := { start := ⟨0, 11⟩, «end» := ⟨1, 1⟩ },
                     newText := "w" } ] } =
      (TextBuffer.ofText "abc\ndefgh", some EditError.overlap) ∧
    EditError.overlap ≠ EditError.outOfRange :=
  ⟨rfl, rfl, by decide⟩

def c5OutOfRangeEdit : TextEdit :=
  { range := { start := ⟨0, 10⟩, «end» := ⟨0, 10⟩ }, newText := "Z" }

/-- C5 witness: the single-edit batch at column 10 of the three-column row
"abc" fails and leaves the buffer unchanged. -/
theorem c5_out_of_range_edit_fails_batch_witness :
    (runBatch (TextBuffer.ofText "abc")
      { textDocument := { uri := "file:///a", version := none },
        edits := [c5OutOfRangeEdit] }).1 = TextBuffer.ofText "abc" ∧
    ∃ err, (runBatch (TextBuffer.ofText "abc")
      { textDocument := { uri := "file:///a", version := none },
        edits := [c5OutOfRangeEdit] }).2 = some err :=
  c5_out_of_range_edit_fails_batch (TextBuffer.ofText "abc")
    { uri := "file:///a", version := none } [c5OutOfRangeEdit] c5OutOfRangeEdit
    (by decide) (Or.inr ⟨3, rfl, by decide⟩)

theorem stableSort_eq_of_perm_of_distinct {l1 l2 : List AtomTextEdit}
    (hperm : l1.Perm l2)
    (hdist : l1.Pairwise (fun x y => x.oldRange ≠ y.oldRange)) :
    stableSort sortCompare l1 = stableSort sortCompare l2 := by
  have hS : ∀ {x y : AtomTextEdit}, x.oldRange ≠ y.oldRange →
      y.oldRange ≠ x.oldRange := fun h => h.symm
  have hp1 := pairwise_stableSort sortCompare_asym sortCompare_trans l1
  have hp2 := pairwise_stableSort sortCompare_asym sortCompare_trans l2
  have hd1 : (stableSort sortCompare l1).Pairwise
      (fun x y => x.oldRange ≠ y.oldRange) :=
    ((stableSort_perm sortCompare l1).pairwise_iff hS).mpr hdist
  have hd2 : (stableSort sortCompare l2).Pairwise
      (fun x y => x.oldRange ≠ y.oldRange) :=
    ((stableSort_perm sortCompare l2).pairwise_iff hS).mpr
      ((hperm.pairwise_iff hS).mp hdist)
  have hstrictify : ∀ {x y : AtomTextEdit},
      (fun x y => ¬ sortCompare y x < 0) x y ∧ x.oldRange ≠ y.oldRange →
      rangeLt y.oldRange x.oldRange := by
    rintro x y ⟨hnot, hne⟩
    rw [sortCompare_neg_iff] at hnot
    by_cases h : rangeLt y.oldRange x.oldRange
    · exact h
    · exact absurd (rangeLt_antisymm hnot h) hne
  have hstrict1 := (hp1.and hd1).imp hstrictify
  have hstrict2 := (hp2.and hd2).imp hstrictify
  exact pairwise_perm_eq (fun a b h h' => rangeLt_asymm h h')
    ((stableSort_perm sortCompare l1).trans
      (hperm.trans (stableSort_perm sortCompare l2).symm))
    hstrict1 hstrict2

/-- C4 (amended): for a set of pairwise non-overlapping, in-range edits no two
of which share the same range, applying the batch from any two input orderings
yields identical results — the stable reverse sort maps both orderings to the
same sorted list. -/
theorem c4_order_independence (b : TextBuffer)
    (td : VersionedTextDocumentIdentifier) (l1 l2 : List TextEdit)
    (hperm : l1.Perm l2)
    (_hnov : l1.Pairwise (fun x y => ¬ trulyOverlap x.range y.range))
    (_hinr : ∀ e ∈ l1, validStart b e.range.start)
    (hdist : l1.Pairwise (fun x y => x.range ≠ y.range)) :
    runBatch b { textDocument := td, edits := l1 } =
      runBatch b { textDocument := td, edits := l2 } := by
  have hdistm : (l1.map convertLsTextEdit).Pairwise
      (fun x y => x.oldRange ≠ y.oldRange) := by
    rw [List.pairwise_map]
    exact hdist
  have hsort := stableSort_eq_of_perm_of_distinct
    (hperm.map convertLsTextEdit) hdistm
  rw [runBatch_eq, runBatch_eq, hsort]

/-- C4 counterexample to the claim as stated: two insertions at the same point
(empty, hence non-overlapping, in-range ranges) compare equal, so the stable
sort keeps their input order and the two orderings produce different
contents ("yx" versus "xy"). -/
theorem c4_same_point_insertions_not_order_independent :
    (([ { range := { start := ⟨0, 0⟩, «end» := ⟨0, 0⟩ }, newText := "x" },
        { range := { start := ⟨0, 0⟩, «end» := ⟨0, 0⟩ }, newText := "y" } ] :
      List TextEdit).Perm
      [ { range := { start := ⟨0, 0⟩, «end» := ⟨0, 0⟩ }, newText := "y" },
        { range := { start := ⟨0, 0⟩, «end» := ⟨0, 0⟩ }, newText := "x" } ]) ∧
    ([ { range := { start := ⟨0, 0⟩, «end» := ⟨0, 0⟩ }, newText := "x" },
       { range := { start := ⟨0, 0⟩, «end» := ⟨0, 0⟩ }, newText := "y" } ] :
      List TextEdit).Pairwise (fun a b => ¬ trulyOverlap a.range b.range) ∧
    (∀ e ∈ ([ { range := { start := ⟨0, 0⟩, «end» := ⟨0, 0⟩ }, newText := "x" },
              { range := { start := ⟨0, 0⟩, «end» := ⟨0, 0⟩ }, newText := "y" } ] :
      List TextEdit), validStart (TextBuffer.ofText "") e.range.start) ∧
    runBatch (TextBuffer.ofText "")
      { textDocument := { uri := "file:///a", version := none },
        edits := [ { range := { start := ⟨0, 0⟩, «end» := ⟨0, 0⟩ },
                     newText := "x" },
                   { range := { start := ⟨0, 0⟩, «end» := ⟨0, 0⟩ },
                     newText := "y" } ] } ≠
      runBatch (TextBuffer.ofText "")
        { textDocument := { uri := "file:///a", version := none },
          edits := [ { range := { start := ⟨0, 0⟩, «end» := ⟨0, 0⟩ },
                       newText := "y" },
                     { range := { start := ⟨0, 0⟩, «end» := ⟨0, 0⟩ },
                       newText := "x" } ] } := by
  refine ⟨?_, ?_, ?_, ?_⟩ <;> decide

def c4EditA : TextEdit :=
  { range := { start := ⟨0, 0⟩, «end» := ⟨0, 2⟩ }, newText := "aa" }

def c4EditB : TextEdit :=
  { range := { start := ⟨0, 3⟩, «end» := ⟨0, 5⟩ }, newText := "bb" }

/-- C4 witness: the distinct-range pair applied to "hello" in either order
gives the same result. -/
theorem c4_order_independence_witness :
    runBatch (TextBuffer.ofText "hello")
      { textDocument := { uri := "file:///a", version := none },
        edits := [c4EditA, c4EditB] } =
    runBatch (TextBuffer.ofText "hello")
      { textDocument := { uri := "file:///a", version := none },
        edits := [c4EditB, c4EditA] } :=
  c4_order_independence (TextBuffer.ofText "hello")
    { uri := "file:///a", version := none } [c4EditA, c4EditB] [c4EditB, c4EditA]
    (by decide) (by decide) (by decide) (by decide)
